import Mathlib

/-!
Verification of `automl_zero/definitions.h` (google-research, AutoML-Zero).

The file embeds the declarative core of `definitions.h`: the typed address
space constants, the overflow-checked integer cast `SafeCast`, the guard
helpers (`PositiveOrDie`, `NotNullOrDie`, `NonEmptyOrDie`,
`SizeLessThanOrDie`), the opcode conversion `ConvertToOps`, the textual
renderers `VectorToString` / `MatrixToString`, and the deterministic hash
mixing utility `CustomHashMix`.

Machine integers are embedded as `Nat` / `Int` with explicit reductions
modulo `2 ^ w` where overflow or narrowing matters.  C++ `CHECK` failures are
embedded as `Option`: a `CHECK` that fires yields `none`.
-/

namespace AutomlZero

/-! ### Address-space constants (`definitions.h`, Memory-related definitions) -/

/-- The C++ type `AddressT` is `uint16_t`; all the address constants below are
tiny, so we embed addresses as `Nat`. -/
abbrev AddressT := Nat

/-- Preprocessor default `MAX_SCALAR_ADDRESSES 20`. -/
def MAX_SCALAR_ADDRESSES : Nat := 20

/-- Preprocessor default `MAX_VECTOR_ADDRESSES 20`. -/
def MAX_VECTOR_ADDRESSES : Nat := 20

/-- Preprocessor default `MAX_MATRIX_ADDRESSES 20`. -/
def MAX_MATRIX_ADDRESSES : Nat := 20

/-- Scalar address holding the label of the current example. -/
def kLabelsScalarAddress : AddressT := 0

/-- Scalar address holding the prediction output. -/
def kPredictionsScalarAddress : AddressT := 1

/-- First general output scalar address. -/
def kFirstOutScalarAddress : AddressT := 1

/-- Capacity of the scalar address space. -/
def kMaxScalarAddresses : AddressT := MAX_SCALAR_ADDRESSES

/-- Vector address holding the input feature vector. -/
def kFeaturesVectorAddress : AddressT := 0

/-- First general output vector address. -/
def kFirstOutVectorAddress : AddressT := 1

/-- Vector address holding the label. -/
def kLabelsVectorAddress : AddressT := 1

/-- Vector address holding the prediction. -/
def kPredictionsVectorAddress : AddressT := 2

/-- Capacity of the vector address space. -/
def kMaxVectorAddresses : AddressT := MAX_VECTOR_ADDRESSES

/-- First output matrix address. -/
def kFirstOutMatrixAddress : AddressT := 0

/-- Capacity of the matrix address space. -/
def kMaxMatrixAddresses : AddressT := MAX_MATRIX_ADDRESSES

/-! ### Safe integer casting (`SafeCast`) -/

/-- A C++ integer type, given by the closed interval of mathematical integers
it can represent.  `SafeCast` is a template over the output type; we pass the
output type's range explicitly. -/
structure IntType where
  lo : Int
  hi : Int
deriving DecidableEq, Repr

/-- Range of `int64_t`, the C++ `IntegerT`. -/
def int64Range : IntType := ⟨-(2 ^ 63 : Int), (2 ^ 63 : Int) - 1⟩

/-- Range of `uint32`, the C++ `RandomSeedT`. -/
def uint32Range : IntType := ⟨0, (2 ^ 32 : Int) - 1⟩

/-- Range of `uint16_t`, the C++ `AddressT` and `InstructionIndexT`. -/
def uint16Range : IntType := ⟨0, (2 ^ 16 : Int) - 1⟩

/-- Modelled from the spec: `util_intops::SafeAdd` lives in
`util/intops/safe_int_ops.h`, which is not under `src/`.  Per the spec's safe
conversion contract, the checked addition produces the mathematical sum only
when it is representable in the output type, and otherwise reports failure
instead of continuing with a corrupted value. -/
def SafeAdd (out : IntType) (a b : Int) : Option Int :=
  let sum := a + b
  if out.lo ≤ sum ∧ sum ≤ out.hi then some sum else none

/-- Embedding of `SafeCast` from `definitions.h`: the cast is performed by
`CHECK(util_intops::SafeAdd(value, 0, &result))`, so it yields `value + 0`
when that is representable in the output type and fails (`none`) otherwise. -/
def SafeCast (out : IntType) (value : Int) : Option Int :=
  SafeAdd out value 0

/-! ### Guard helpers -/

/-- Embedding of `PositiveOrDie`: `CHECK_GT(value, NumericT())` compares the
value with the zero of its numeric type; the value passes through unchanged
exactly when it is strictly positive. -/
def PositiveOrDie (value : Int) : Option Int :=
  if 0 < value then some value else none

/-- Embedding of `NotNullOrDie`: a C++ pointer is embedded as `Option α`
(`none` is `nullptr`); the pointer passes through unchanged exactly when it
is non-null. -/
def NotNullOrDie {α : Type} (value : Option α) : Option (Option α) :=
  if value.isSome then some value else none

/-- Embedding of `NonEmptyOrDie`: the container passes through unchanged
exactly when it is non-empty (`CHECK(!value.empty())`). -/
def NonEmptyOrDie {α : Type} (value : List α) : Option (List α) :=
  if value.isEmpty then none else some value

/-- Embedding of `SizeLessThanOrDie`: the container passes through unchanged
exactly when its size is strictly below `max_size`
(`CHECK_LT(value.size(), max_size)`). -/
def SizeLessThanOrDie {α : Type} (value : List α) (max_size : Nat) :
    Option (List α) :=
  if value.length < max_size then some value else none

/-! ### Opcode validation (`ConvertToOps`) -/

/-- Modelled from the spec: the enum `Op` and the predicate `Op_IsValid` are
generated from `definitions.proto`, which is not under `src/`.  Per the spec,
validation succeeds exactly on the enumerated set of known operation codes;
we model that set as the contiguous integer codes `0 .. kNumOps - 1`. -/
def kNumOps : Nat := 65

/-- Modelled from the spec: membership of a raw integer in the enumerated
operation set (see `kNumOps`). -/
def Op_IsValid (value : Int) : Bool :=
  decide (0 ≤ value ∧ value < (kNumOps : Int))

/-- Embedding of `ConvertToOps` from `definitions.h`: walk the input values in
order; `CHECK(Op_IsValid(value))` on each (a failing check yields `none`), and
push `static_cast<Op>(value)` onto the output.  `Op` values are embedded as
their integer codes, so the cast is the identity on valid codes. -/
def ConvertToOps : List Int → Option (List Int)
  | [] => some []
  | value :: rest =>
      if Op_IsValid value then (ConvertToOps rest).map (fun l => value :: l)
      else none

/-! ### Textual rendering of vectors and matrices

The C++ renderers stream `value(i)` (a `double`) into an `ostringstream`.
Floating-point formatting is outside the embedding, so the coordinate
renderer `render : α → String` (the `operator<<` of the coordinate type) is a
parameter; everything the claims state is about the surrounding structure and
holds for every `render`.  A `Vector<F>` is a function `Fin F → α` and a
`Matrix<F>` (row-major) is `Fin F → Fin F → α`. -/

/-- Embedding of `VectorToString`: start from `"["`, append
`value(i) << ", "` for `i = 0 .. F-1` in order, then append `"]"`. -/
def VectorToString {α : Type} (F : Nat) (render : α → String)
    (value : Fin F → α) : String :=
  ((List.finRange F).foldl (fun acc i => acc ++ render (value i) ++ ", ") "[")
    ++ "]"

/-- Embedding of the `ToString` overload for vectors, which delegates to
`VectorToString<F>`. -/
def ToStringVector {α : Type} (F : Nat) (render : α → String)
    (value : Fin F → α) : String :=
  VectorToString F render value

/-- Embedding of `MatrixToString`: start from `"\n["`; for each row `i` append
`"["`, then `value(i, j) << ", "` for `j = 0 .. F-1`, then `"],\n"`; finally
append `"]\n"`. -/
def MatrixToString {α : Type} (F : Nat) (render : α → String)
    (value : Fin F → Fin F → α) : String :=
  ((List.finRange F).foldl
      (fun acc i =>
        ((List.finRange F).foldl
            (fun acc2 j => acc2 ++ render (value i j) ++ ", ")
            (acc ++ "[")) ++ "],\n")
      "\n[") ++ "]\n"

/-- Embedding of the `ToString` overload for matrices, which delegates to
`MatrixToString<F>`. -/
def ToStringMatrix {α : Type} (F : Nat) (render : α → String)
    (value : Fin F → Fin F → α) : String :=
  MatrixToString F render value

/-- Concatenation of a list of strings in order; used to state the closed
form of the renderers. -/
def joinAll : List String → String
  | [] => ""
  | s :: rest => s ++ joinAll rest

/-! ### Hash mixing (`CustomHashMix`) -/

/-- Modelled from the spec: the class `HashMix` of `util/hash/mix.h` is not
under `src/`.  The spec requires a deterministic, order-sensitive mix of a
sequence of numbers into a 64-bit (`size_t`) accumulator; we model the
standard multiply / rotate-left-19 / add step on 64-bit words with the usual
multiplier. -/
def kHashMixMul : Nat := 0xdc3eb94af8ab4c93

/-- Modelled from the spec: one `HashMix::Mix(val)` step on the 64-bit
accumulator `h` (see `kHashMixMul`). -/
def hashMixStep (h val : Nat) : Nat :=
  let m := (h * kHashMixMul) % 2 ^ 64
  let r := ((m <<< 19) % 2 ^ 64) ||| (m >>> 45)
  (r + val) % 2 ^ 64

/-- Modelled from the spec: the accumulator value of a default-constructed
`HashMix` before any `Mix` call. -/
def hashMixInit : Nat := 1

/-- The 64-bit accumulator obtained by mixing `numbers` in order into a fresh
`HashMix` (the value `mix.get()` returns at the end of `CustomHashMix`). -/
def hashMixGet (numbers : List Nat) : Nat :=
  numbers.foldl hashMixStep hashMixInit

/-- Embedding of the sequence form of `CustomHashMix` from `definitions.h`,
for an unsigned `NumberT` of bit width `w ≤ 64` (values in `0 .. 2^w - 1`):
each number is cast to `size_t` (value-preserving, modelled by `% 2 ^ 64`),
mixed in order, and `mix.get()` is converted back to `NumberT` on return,
which reduces the 64-bit accumulator modulo `2 ^ w`. -/
def CustomHashMix (w : Nat) (numbers : List Nat) : Nat :=
  ((numbers.map (fun n => n % 2 ^ 64)).foldl hashMixStep hashMixInit) % 2 ^ w

/-- Embedding of the two-argument convenience form of `CustomHashMix`, which
calls the sequence form on the brace-initialized vector `{first, second}`. -/
def CustomHashMix2 (w : Nat) (first second : Nat) : Nat :=
  CustomHashMix w [first, second]

/-- Bit width of `RandomSeedT` (`uint32`), the intended instantiation of
`CustomHashMix`. -/
def RandomSeedWidth : Nat := 32

/-! ### Helper lemmas -/

/-- Folding string appends of the form `acc ++ g x ++ h x` over a list,
starting from `s`, yields `s` followed by the concatenation of the pieces in
list order. -/
theorem foldl_render_join {β : Type} (g h : β → String) (l : List β) :
    ∀ s : String,
      l.foldl (fun acc x => acc ++ g x ++ h x) s
        = s ++ joinAll (l.map (fun x => g x ++ h x)) := by
  induction l with
  | nil =>
      intro s
      show s = s ++ ""
      simp
  | cons x xs ih =>
      intro s
      simp only [List.foldl_cons, List.map_cons, joinAll]
      rw [ih]
      simp [String.append_assoc]

/-! ### Theorems for the claims -/

/-- C1: for every target integer type and every integer value, `SafeCast`
returns the value unchanged when it is representable in the target type, and
fails (the `CHECK` fires, embedded as `none`) when the value lies outside the
representable range, rather than truncating or wrapping. -/
theorem SafeCast_correct (out : IntType) (value : Int) :
    (out.lo ≤ value ∧ value ≤ out.hi → SafeCast out value = some value) ∧
    (¬(out.lo ≤ value ∧ value ≤ out.hi) → SafeCast out value = none) := by
  unfold SafeCast SafeAdd
  simp only [Int.add_zero]
  constructor <;> intro h <;> simp [h]

/-- Witness for C1: `SafeCast` to `uint16_t` preserves 7 and rejects 70000. -/
theorem SafeCast_correct_witness :
    SafeCast uint16Range 7 = some 7 ∧ SafeCast uint16Range 70000 = none :=
  ⟨(SafeCast_correct uint16Range 7).1 (by decide),
   (SafeCast_correct uint16Range 70000).2 (by decide)⟩

/-- C2: the two-argument convenience form of `CustomHashMix` returns exactly
the value of the general sequence form applied to the two-element sequence
`[first, second]`, for every width and every pair of numbers. -/
theorem CustomHashMix2_eq_seq (w first second : Nat) :
    CustomHashMix2 w first second = CustomHashMix w [first, second] := rfl

/-- C3: `CustomHashMix` is order-sensitive: at the `RandomSeedT`
instantiation, mixing the sequence `[1, 2]` and mixing `[2, 1]` give
different digests. -/
theorem CustomHashMix_order_sensitive :
    CustomHashMix RandomSeedWidth [1, 2] ≠ CustomHashMix RandomSeedWidth [2, 1] := by
  decide

/-- C4: if every element of the input list is a valid opcode, `ConvertToOps`
returns the list of corresponding `Op` values (same length, same order,
element-wise cast, hence the list itself in this embedding); if any element
is invalid, the `CHECK` fires and `ConvertToOps` returns no value. -/
theorem ConvertToOps_correct (values : List Int) :
    ((∀ v ∈ values, Op_IsValid v = true) → ConvertToOps values = some values) ∧
    ((∃ v ∈ values, Op_IsValid v = false) → ConvertToOps values = none) := by
  induction values with
  | nil =>
      refine ⟨fun _ => rfl, ?_⟩
      rintro ⟨v, hv, _⟩
      exact absurd hv (List.not_mem_nil v)
  | cons v rest ih =>
      constructor
      · intro h
        have hv : Op_IsValid v = true := h v (List.mem_cons_self v rest)
        have hr := ih.1 fun x hx => h x (List.mem_cons_of_mem v hx)
        simp [ConvertToOps, hv, hr]
      · rintro ⟨x, hx, hxinv⟩
        rcases List.mem_cons.mp hx with rfl | hx2
        · simp [ConvertToOps, hxinv]
        · by_cases hv : Op_IsValid v = true
          · have hr := ih.2 ⟨x, hx2, hxinv⟩
            simp [ConvertToOps, hv, hr]
          · simp [ConvertToOps, hv]

/-- Witness for C4: a list of valid opcodes converts to itself, and a list
containing the invalid code 65 is rejected. -/
theorem ConvertToOps_correct_witness :
    ConvertToOps [0, 3, 64] = some [0, 3, 64] ∧ ConvertToOps [0, 65] = none :=
  ⟨(ConvertToOps_correct [0, 3, 64]).1 (by decide),
   (ConvertToOps_correct [0, 65]).2 ⟨65, by decide, by decide⟩⟩

/-- C5: each guard helper returns its argument unchanged exactly when its
guard holds and fails exactly when it does not: `PositiveOrDie` requires a
strictly positive value, `NotNullOrDie` a non-null pointer, `NonEmptyOrDie` a
non-empty container, and `SizeLessThanOrDie` a size strictly below the given
maximum. -/
theorem GuardHelpers_correct {α β : Type} (v : Int) (p : Option β)
    (c : List α) (m : Nat) :
    (PositiveOrDie v = some v ↔ 0 < v) ∧
    (PositiveOrDie v = none ↔ ¬0 < v) ∧
    (NotNullOrDie p = some p ↔ p.isSome = true) ∧
    (NotNullOrDie p = none ↔ p = none) ∧
    (NonEmptyOrDie c = some c ↔ c ≠ []) ∧
    (NonEmptyOrDie c = none ↔ c = []) ∧
    (SizeLessThanOrDie c m = some c ↔ c.length < m) ∧
    (SizeLessThanOrDie c m = none ↔ ¬c.length < m) := by
  unfold PositiveOrDie NotNullOrDie NonEmptyOrDie SizeLessThanOrDie
  by_cases hv : 0 < v <;> by_cases hp : p.isSome = true <;>
    by_cases hc : c = [] <;> by_cases hm : c.length < m <;>
    simp [hv, hp, hc, hm, Option.isSome_iff_exists, List.isEmpty_iff]
  all_goals
    cases p <;> simp_all <;> omega

/-- Witness for C5: the guards at concrete passing inputs. -/
theorem GuardHelpers_correct_witness :
    PositiveOrDie 3 = some 3 ∧ NonEmptyOrDie [0] = some [0] ∧
      SizeLessThanOrDie [0] 2 = some [0] ∧ NotNullOrDie (some 0) = some (some 0) :=
  ⟨(GuardHelpers_correct (α := Nat) (β := Nat) 3 (some 0) [0] 2).1.mpr (by decide),
   (GuardHelpers_correct (α := Nat) (β := Nat) 3 (some 0) [0] 2).2.2.2.2.1.mpr (by decide),
   (GuardHelpers_correct (α := Nat) (β := Nat) 3 (some 0) [0] 2).2.2.2.2.2.2.1.mpr (by decide),
   (GuardHelpers_correct (α := Nat) (β := Nat) 3 (some 0) [0] 2).2.2.1.mpr (by decide)⟩

/-- C6: the reserved address constants have the conventional values: scalar
label 0 and prediction 1; vector features 0, label 1, prediction 2; matrix
first output 0. -/
theorem ReservedAddresses_values :
    kLabelsScalarAddress = 0 ∧ kPredictionsScalarAddress = 1 ∧
    kFeaturesVectorAddress = 0 ∧ kLabelsVectorAddress = 1 ∧
    kPredictionsVectorAddress = 2 ∧ kFirstOutMatrixAddress = 0 := by
  decide

/-- C7: the rendering helpers are deterministic functions producing the
bracketed, comma-separated form: `ToString` delegates to
`VectorToString` / `MatrixToString`, the vector rendering is exactly the
coordinates in index order, each followed by `", "`, enclosed in `[` and `]`,
and the matrix rendering lists the rows in order (row-major), each row its
coordinates in index order with the same separators and brackets. -/
theorem ToString_renders_coordinates {α : Type} (F : Nat) (render : α → String)
    (v : Fin F → α) (mval : Fin F → Fin F → α) :
    ToStringVector F render v = VectorToString F render v ∧
    VectorToString F render v
      = "[" ++ joinAll ((List.finRange F).map fun i => render (v i) ++ ", ")
          ++ "]" ∧
    ToStringMatrix F render mval = MatrixToString F render mval ∧
    MatrixToString F render mval
      = "\n[" ++ joinAll ((List.finRange F).map fun i =>
            "[" ++ joinAll ((List.finRange F).map fun j =>
                render (mval i j) ++ ", ")
              ++ "],\n")
          ++ "]\n" := by
  refine ⟨rfl, ?_, rfl, ?_⟩
  · unfold VectorToString
    rw [foldl_render_join (fun i => render (v i)) (fun _ => ", ")]
  · unfold MatrixToString
    have hfun :
        (fun (acc : String) (i : Fin F) =>
            ((List.finRange F).foldl
                (fun acc2 j => acc2 ++ render (mval i j) ++ ", ")
                (acc ++ "[")) ++ "],\n")
          = fun (acc : String) (i : Fin F) =>
              acc ++ ("[" ++ joinAll ((List.finRange F).map fun j =>
                  render (mval i j) ++ ", ")) ++ "],\n" := by
      funext acc i
      rw [foldl_render_join (fun j => render (mval i j)) (fun _ => ", ")]
      simp [String.append_assoc]
    rw [hfun,
      foldl_render_join
        (fun i => "[" ++ joinAll ((List.finRange F).map fun j =>
            render (mval i j) ++ ", "))
        (fun _ => "],\n")]

/-- C8: at the `RandomSeedT` (`uint32`) instantiation, `CustomHashMix`
returns the 64-bit `HashMix` accumulator reduced modulo `2 ^ 32` on every
input sequence: the digest fits the random-seed width, and the narrowing on
return is a consistent truncation to the low 32 bits. -/
theorem CustomHashMix_seed_truncation (numbers : List Nat)
    (h : ∀ n ∈ numbers, n < 2 ^ RandomSeedWidth) :
    CustomHashMix RandomSeedWidth numbers = hashMixGet numbers % 2 ^ 32 ∧
    CustomHashMix RandomSeedWidth numbers < 2 ^ 32 := by
  have hmap : numbers.map (fun n => n % 2 ^ 64) = numbers := by
    rw [show numbers.map (fun n => n % 2 ^ 64) = numbers.map id from ?_,
      List.map_id]
    apply List.map_congr_left
    intro n hn
    exact Nat.mod_eq_of_lt (lt_trans (h n hn) (by norm_num [RandomSeedWidth]))
  constructor
  · unfold CustomHashMix hashMixGet
    rw [hmap]
    rfl
  · exact Nat.mod_lt _ (by positivity)

/-- Witness for C8: the truncation identity and the width bound at the
concrete sequence `[1, 2]`. -/
theorem CustomHashMix_seed_truncation_witness :
    CustomHashMix RandomSeedWidth [1, 2] = hashMixGet [1, 2] % 2 ^ 32 ∧
    CustomHashMix RandomSeedWidth [1, 2] < 2 ^ 32 :=
  CustomHashMix_seed_truncation [1, 2] (by decide)

/-- C9: every named reserved address is strictly below its space's capacity
constant under the default capacities (all 20), so the reserved slots are
always addressable. -/
theorem ReservedAddresses_below_capacity :
    kLabelsScalarAddress < kMaxScalarAddresses ∧
    kPredictionsScalarAddress < kMaxScalarAddresses ∧
    kFeaturesVectorAddress < kMaxVectorAddresses ∧
    kLabelsVectorAddress < kMaxVectorAddresses ∧
    kPredictionsVectorAddress < kMaxVectorAddresses ∧
    kFirstOutMatrixAddress < kMaxMatrixAddresses := by
  decide

/-- C10: `CustomHashMix` is total on the empty sequence: at the `RandomSeedT`
instantiation it returns the digest of the unmixed initial accumulator, the
same constant (here 1) on every call. -/
theorem CustomHashMix_empty_total :
    CustomHashMix RandomSeedWidth [] = hashMixInit % 2 ^ RandomSeedWidth ∧
    CustomHashMix RandomSeedWidth [] = 1 := by
  decide

end AutomlZero
